import Mathlib

/-!
Verification of the trashexpiry program (src/main.rs): a shallow embedding of
its trash-record parsing, payload-path derivation, config layering, age
computation, classification and deletion logic, together with theorems about
the claims made by the specification.

Modelling conventions:
- A filesystem path is its list of normalized components (no `.` or `..`
  segments, no empty segments); `Path::parent` drops the last component and is
  `none` on the empty path, matching the lexical behaviour of Rust paths.
- Machine integers (`i64`) are `Int` with explicit range checks where the code
  can observe them (string-to-integer parsing).
- `chrono`'s `Duration::num_days` truncates toward zero, which is `Int.tdiv`.
- The filesystem is a list of (path, isDirectory) entries; removal operations
  either fail leaving the state unchanged or succeed removing the entries.
- `Ini::load_from_file` (third-party crate) is modelled by its result, an
  `Except String Ini` value supplied as an input of the functions that call it.
-/

namespace Trashexpiry

/-- A filesystem path, as its list of normalized components. -/
abbrev Path := List String

/-- Index of the last occurrence of a dot, accumulator form. -/
def lastDotIdxAux : List Char → Nat → Option Nat → Option Nat
  | [], _, acc => acc
  | c :: rest, i, acc => lastDotIdxAux rest (i + 1) (if c = '.' then some i else acc)

/-- Index of the last dot of a file name, if any. -/
def lastDotIdx (s : String) : Option Nat := lastDotIdxAux s.toList 0 none

/-- Rust `Path::file_stem` on one file-name component: everything before the
last dot, except that a dot at position 0 does not count as a separator. -/
def fileStemStr (s : String) : String :=
  match lastDotIdx s with
  | none => s
  | some 0 => s
  | some (i + 1) => String.mk (s.toList.take (i + 1))

/-- Rust `Path::extension` on one file-name component: everything after the
last dot, `none` if there is no dot or the only dot is at position 0. -/
def extOfName (s : String) : Option String :=
  match lastDotIdx s with
  | none => none
  | some 0 => none
  | some (i + 1) => some (String.mk (s.toList.drop (i + 2)))

/-- Rust `Path::parent`: drop the last component; `none` on the empty path. -/
def parent (p : Path) : Option Path :=
  match p with
  | [] => none
  | _ :: _ => some p.dropLast

/-- Rust `Path::file_name`: the last component, if any. -/
def fileName (p : Path) : Option String := p.getLast?

/-- Rust `Path::file_stem` on a whole path. -/
def file_stem (p : Path) : Option String := (fileName p).map fileStemStr

/-- Rust `Path::extension` on a whole path. -/
def extension (p : Path) : Option String := (fileName p).bind extOfName

/-- `info_to_file` from src/main.rs: from a trash info file path, derive the
corresponding trashed file path, purely lexically. -/
def info_to_file (info_file : Path) : Except String Path :=
  match parent info_file with
  | none => Except.error "Could not go up to trash info dir"
  | some info_dir =>
    match parent info_dir with
    | none => Except.error "Could not go up to trash dir"
    | some trash_dir =>
      match file_stem info_file with
      | some n => Except.ok (trash_dir ++ ["files", n])
      | none => Except.error "No trash info file name"

/-- A parsed ini document: a list of sections, each a section name (`none`
for the top level) with its key-value pairs, as produced by the ini crate. -/
structure Ini where
  sections : List (Option String × List (String × String))
deriving DecidableEq

/-- `Ini::section`: the first section with the given name. -/
def Ini.section_ (ini : Ini) (name : Option String) : Option (List (String × String)) :=
  (ini.sections.find? (fun s => s.1 == name)).map (fun s => s.2)

/-- `Properties::get`: the first value stored under a key of a section. -/
def getVal (sec : List (String × String)) (key : String) : Option String :=
  (sec.find? (fun kv => kv.1 == key)).map (fun kv => kv.2)

/-- `Ini::get_from`: value of a key inside a given section. -/
def Ini.get_from (ini : Ini) (sec : Option String) (key : String) : Option String :=
  (ini.section_ sec).bind (fun s => getVal s key)

/-- Value of one decimal digit character, `none` for other characters. -/
def digitVal (c : Char) : Option Nat :=
  if c.isDigit then some (c.toNat - 48) else none

/-- Gregorian leap-year test. -/
def isLeap (y : Int) : Bool :=
  Int.emod y 4 == 0 && (Int.emod y 100 != 0 || Int.emod y 400 == 0)

/-- Days in a month of a given year. -/
def daysInMonth (y : Int) (m : Nat) : Nat :=
  if m == 2 then (if isLeap y then 29 else 28)
  else if m == 4 || m == 6 || m == 9 || m == 11 then 30
  else 31

/-- Days from 1970-01-01 to the given civil date (proleptic Gregorian). -/
def daysFromCivil (y : Int) (m d : Nat) : Int :=
  let yAdj : Int := if m ≤ 2 then y - 1 else y
  let era : Int := Int.fdiv yAdj 400
  let yoe : Int := yAdj - era * 400
  let mp : Nat := (m + 9) % 12
  let doy : Nat := (153 * mp + 2) / 5 + (d - 1)
  let doe : Int := yoe * 365 + Int.fdiv yoe 4 - Int.fdiv yoe 100 + (doy : Int)
  era * 146097 + doe - 719468

/-- chrono trims whitespace in front of every numeric field
(`char::is_whitespace`, modelled here as ASCII whitespace). -/
def dropWs : List Char → List Char
  | [] => []
  | c :: rest => if c.isWhitespace then dropWs rest else c :: rest

/-- chrono `scan::number`: greedily consume leading decimal digits, at most
the given number of them; return the digits and the rest. -/
def takeDigits : Nat → List Char → List Char × List Char
  | 0, cs => ([], cs)
  | _ + 1, [] => ([], [])
  | fuel + 1, c :: rest =>
    if c.isDigit then
      let p := takeDigits fuel rest
      (c :: p.1, p.2)
    else ([], c :: rest)

/-- Value of a list of decimal digits. -/
def natOfDigits (ds : List Char) : Nat :=
  ds.foldl (fun a c => 10 * a + (c.toNat - 48)) 0

/-- One unsigned numeric field of a chrono format string: trim whitespace,
then consume one up to `maxw` digits. -/
def parseNumField (maxw : Nat) (cs : List Char) : Option (Nat × List Char) :=
  let cs2 := dropWs cs
  let p := takeDigits maxw cs2
  if p.1.isEmpty then none else some (natOfDigits p.1, p.2)

/-- The `%Y` field: trim whitespace; with an explicit sign chrono consumes
arbitrarily many digits, without one at most four. -/
def parseYearField (cs : List Char) : Option (Int × List Char) :=
  let cs2 := dropWs cs
  match cs2 with
  | '-' :: rest =>
    let p := takeDigits rest.length rest
    if p.1.isEmpty then none else some (-((natOfDigits p.1 : Int)), p.2)
  | '+' :: rest =>
    let p := takeDigits rest.length rest
    if p.1.isEmpty then none else some ((natOfDigits p.1 : Int), p.2)
  | _ =>
    let p := takeDigits 4 cs2
    if p.1.isEmpty then none else some ((natOfDigits p.1 : Int), p.2)

/-- Calendar validation and conversion as chrono performs after parsing:
year within chrono's NaiveDate range, month 1-12, day within the month,
hour to 23, minute to 59, second to 60 (60 is the leap-second
representation, which behaves as one second after 59 in duration
arithmetic). The result is the local timestamp in seconds. -/
def mkDatetime (y : Int) (mo dy h mi sec : Nat) : Option Int :=
  if -262144 ≤ y ∧ y ≤ 262143 ∧ 1 ≤ mo ∧ mo ≤ 12 ∧ 1 ≤ dy ∧ dy ≤ daysInMonth y mo
      ∧ h ≤ 23 ∧ mi ≤ 59 ∧ sec ≤ 60 then
    some (daysFromCivil y mo dy * 86400
          + (h : Int) * 3600 + (mi : Int) * 60 + (sec : Int))
  else none

/-- `Local.datetime_from_str(s, "%Y-%m-%dT%H:%M:%S")`: chrono matches the
literal separators exactly, attempts no fallback formats and rejects
trailing input, but each numeric field is lenient: leading whitespace is
trimmed, month/day/hour/minute/second may have one or two digits, the year
one to four digits (or a sign followed by arbitrarily many), and second 60
is accepted as a leap second. Local-time resolution is modelled as total
(a fixed-offset timezone); rejections in a DST gap are outside the model. -/
def parseDatetime (s : String) : Option Int :=
  match parseYearField s.toList with
  | some (y, '-' :: r2) =>
    match parseNumField 2 r2 with
    | some (mo, '-' :: r4) =>
      match parseNumField 2 r4 with
      | some (dy, 'T' :: r6) =>
        match parseNumField 2 r6 with
        | some (h, ':' :: r8) =>
          match parseNumField 2 r8 with
          | some (mi, ':' :: r10) =>
            match parseNumField 2 r10 with
            | some (sec, []) => mkDatetime y mo dy h mi sec
            | _ => none
          | _ => none
        | _ => none
      | _ => none
    | _ => none
  | _ => none

/-- The shape the spec's words describe: exactly nineteen characters
YYYY-MM-DDTHH:MM:SS with fixed-width zero-padded decimal fields. Stated
from the spec, for comparison with the code's lenient field parsing. -/
def strictFormatMatch (s : String) : Bool :=
  match s.toList with
  | [y1, y2, y3, y4, c1, m1, m2, c2, d1, d2, c3, h1, h2, c4, n1, n2, c5, s1, s2] =>
    y1.isDigit && y2.isDigit && y3.isDigit && y4.isDigit && c1 == '-' &&
    m1.isDigit && m2.isDigit && c2 == '-' && d1.isDigit && d2.isDigit &&
    c3 == 'T' && h1.isDigit && h2.isDigit && c4 == ':' && n1.isDigit &&
    n2.isDigit && c5 == ':' && s1.isDigit && s2.isDigit
  | _ => false

/-- The `TrashInfo` struct of src/main.rs: one item in the trash. -/
structure TrashInfo where
  info_file : Path
  trashed_file : Path
  original_path : String
  deletion_date : Int
deriving DecidableEq

/-- `TrashInfo::from_info_file`. The result of `Ini::load_from_file` on the
descriptor file is passed in as `loaded`. -/
def TrashInfo.from_info_file (info_file : Path) (loaded : Except String Ini) :
    Except String TrashInfo :=
  match loaded with
  | Except.error e => Except.error e
  | Except.ok info =>
    match info.section_ (some "Trash Info") with
    | none => Except.error "No Trash Info section"
    | some sec =>
      match getVal sec "Path" with
      | none => Except.error "No Path key"
      | some orig_path =>
        match getVal sec "DeletionDate" with
        | none => Except.error "No DeletionDate key"
        | some date_str =>
          match parseDatetime date_str with
          | none => Except.error "bad DeletionDate timestamp"
          | some deletion_date =>
            match info_to_file info_file with
            | Except.error e => Except.error e
            | Except.ok trashed_file =>
              Except.ok { info_file := info_file, trashed_file := trashed_file,
                          original_path := orig_path, deletion_date := deletion_date }

/-- A filesystem: the existing paths, each marked whether it is a directory. -/
abbrev FS := List (Path × Bool)

/-- `Path::is_dir`: the path exists and is a directory. -/
def FS.isDir (fs : FS) (p : Path) : Bool := fs.contains (p, true)

/-- `fs::remove_file`: fails if the path does not exist as a file; on success
the path is removed and the rest of the filesystem is unchanged. -/
def removeFile (p : Path) (fs : FS) : Except String FS :=
  if fs.contains (p, false) then
    Except.ok (fs.filter (fun e => !(e.1 == p)))
  else Except.error "No such file"

/-- `fs::remove_dir_all`: fails if the path does not exist as a directory; on
success the directory and everything under it are removed. -/
def removeDirAll (p : Path) (fs : FS) : Except String FS :=
  if fs.contains (p, true) then
    Except.ok (fs.filter (fun e => !(List.isPrefixOf p e.1)))
  else Except.error "No such directory"

/-- The payload-removal step of `TrashInfo::delete`: recursive removal if the
payload is a directory, single-file removal otherwise. -/
def payloadRemove (ti : TrashInfo) (fs : FS) : Except String FS :=
  if FS.isDir fs ti.trashed_file then removeDirAll ti.trashed_file fs
  else removeFile ti.trashed_file fs

/-- `TrashInfo::delete`: remove the payload first, then the info file; the
`?` operator aborts on the first failure, leaving the state of that failed
removal. Returns the resulting filesystem and the error, if any. -/
def TrashInfo.delete (ti : TrashInfo) (fs : FS) : FS × Option String :=
  match payloadRemove ti fs with
  | Except.error e => (fs, some e)
  | Except.ok fs1 =>
    match removeFile ti.info_file fs1 with
    | Except.error e => (fs1, some e)
    | Except.ok fs2 => (fs2, none)

/-- The `Config` struct: the two day thresholds. -/
structure Config where
  delete_after_days : Int
  warn_after_days : Int
deriving DecidableEq

/-- `Config::default`. -/
def Config.default : Config := { delete_after_days := 60, warn_after_days := 50 }

/-- Decimal digits to a number; `none` on an empty list or a non-digit. -/
def digitsVal : List Char → Nat → Option Nat
  | [], acc => some acc
  | c :: rest, acc =>
    match digitVal c with
    | some d => digitsVal rest (10 * acc + d)
    | none => none

/-- Decimal digits to a number, requiring at least one digit. -/
def digitsToNat : List Char → Option Nat
  | [] => none
  | cs => digitsVal cs 0

/-- `i64::from_str`: optional sign, one or more decimal digits, i64 range. -/
def parseI64 (s : String) : Option Int :=
  match s.toList with
  | '+' :: rest =>
    (digitsToNat rest).bind
      (fun n => if n ≤ 9223372036854775807 then some ((n : Int)) else none)
  | '-' :: rest =>
    (digitsToNat rest).bind
      (fun n => if n ≤ 9223372036854775808 then some (-(n : Int)) else none)
  | cs =>
    (digitsToNat cs).bind
      (fun n => if n ≤ 9223372036854775807 then some ((n : Int)) else none)

/-- The body of the loop of `Config::load` for one config file: each of the
two keys, when present with a parsable integer value, replaces the current
value; otherwise the current value is kept. An unreadable file is skipped. -/
def Config.applyFile (cfg : Config) (loaded : Except String Ini) : Config :=
  match loaded with
  | Except.error _ => cfg
  | Except.ok ini =>
    let cfg1 :=
      match ini.get_from none "delete_after_days" with
      | some s =>
        match parseI64 s with
        | some i => { cfg with delete_after_days := i }
        | none => cfg
      | none => cfg
    match ini.get_from none "warn_after_days" with
    | some s =>
      match parseI64 s with
      | some i => { cfg1 with warn_after_days := i }
      | none => cfg1
    | none => cfg1

/-- `Config::load`: start from the defaults and fold the config files in
order, least preferred first. The load results of the files found by
`find_config_files` are passed in as `files`. -/
def Config.load (files : List (Except String Ini)) : Config :=
  files.foldl Config.applyFile Config.default

/-- `now.signed_duration_since(deletion_date).num_days()`: seconds difference
divided by 86400, truncated toward zero (chrono truncates both the
sub-second part and the sub-day part toward zero). -/
def ageDays (now deletion_date : Int) : Int := Int.tdiv (now - deletion_date) 86400

/-- The three-way decision taken by the main loop for a parsed record. -/
inductive Classification where
  | expire : Classification
  | warn : Int → Classification
  | fresh : Classification
deriving DecidableEq

/-- The classification chain of the main loop: expire when
`days_ago >= delete_after_days`, else warn (with the days left) when
`days_ago >= warn_after_days`, else fresh. -/
def classify (cfg : Config) (days_ago : Int) : Classification :=
  if cfg.delete_after_days ≤ days_ago then Classification.expire
  else if cfg.warn_after_days ≤ days_ago then
    Classification.warn (cfg.delete_after_days - days_ago)
  else Classification.fresh

/-- The `Ok(ti)` branch of the main loop: expire triggers deletion and sets
the exit status to 1 on a deletion error; warn and fresh leave the
filesystem and the status untouched. -/
def processParsed (now : Int) (cfg : Config) (ti : TrashInfo) (fs : FS) (status : Nat) :
    FS × Nat :=
  match classify cfg (ageDays now ti.deletion_date) with
  | Classification.expire =>
    match ti.delete fs with
    | (fs1, none) => (fs1, status)
    | (fs1, some _) => (fs1, 1)
  | Classification.warn _ => (fs, status)
  | Classification.fresh => (fs, status)

/-- One iteration of the main loop over the directory entries. An entry is a
`read_dir` item: either a listing error or a path. `iniOf` gives the result
of `Ini::load_from_file` for each path. -/
def stepEntry (iniOf : Path → Except String Ini) (now : Int) (cfg : Config)
    (st : FS × Nat) (entry : Except String Path) : FS × Nat :=
  match entry with
  | Except.error _ => st
  | Except.ok tif =>
    match extension tif with
    | none => st
    | some s =>
      if s == "trashinfo" then
        match TrashInfo.from_info_file tif (iniOf tif) with
        | Except.ok ti => processParsed now cfg ti st.1 st.2
        | Except.error _ => (st.1, 1)
      else st

/-- The main loop of src/main.rs: fold over all directory entries starting
with exit status 0; the final status is passed to `process::exit`. -/
def runMain (iniOf : Path → Except String Ini) (now : Int) (cfg : Config)
    (entries : List (Except String Path)) (fs : FS) : FS × Nat :=
  entries.foldl (stepEntry iniOf now cfg) (fs, 0)

/-- Whether processing one parsed record errors: only an expired record whose
deletion fails. -/
def recordErr (now : Int) (cfg : Config) (ti : TrashInfo) (fs : FS) : Bool :=
  match classify cfg (ageDays now ti.deletion_date) with
  | Classification.expire => (ti.delete fs).2.isSome
  | Classification.warn _ => false
  | Classification.fresh => false

/-- Whether processing one directory entry errors: a parse failure of a
recognized descriptor, or a deletion failure of an expired record. Listing
errors and skipped entries are not errors. -/
def entryErr (iniOf : Path → Except String Ini) (now : Int) (cfg : Config)
    (fs : FS) (entry : Except String Path) : Bool :=
  match entry with
  | Except.error _ => false
  | Except.ok tif =>
    match extension tif with
    | none => false
    | some s =>
      if s == "trashinfo" then
        match TrashInfo.from_info_file tif (iniOf tif) with
        | Except.ok ti => recordErr now cfg ti fs
        | Except.error _ => true
      else false

/-- The per-entry error flags of a run, threading the filesystem state. -/
def errFlags (iniOf : Path → Except String Ini) (now : Int) (cfg : Config) :
    List (Except String Path) → FS → List Bool
  | [], _ => []
  | e :: rest, fs =>
    entryErr iniOf now cfg fs e ::
      errFlags iniOf now cfg rest (stepEntry iniOf now cfg (fs, 0) e).1

/-- `true` for `Except.error`. -/
def isErrE {ε α : Type} (r : Except ε α) : Bool :=
  match r with
  | Except.error _ => true
  | Except.ok _ => false

/-- `true` for `Except.ok`. -/
def isOkE {ε α : Type} (r : Except ε α) : Bool :=
  match r with
  | Except.error _ => false
  | Except.ok _ => true

/-- A concrete ini document for a descriptor whose deletion date is
1970-01-02T01:00:00, 25 hours after the epoch used by `daysFromCivil`. -/
def iniC5 : Ini :=
  ⟨[(some "Trash Info", [("Path", "/home/x"), ("DeletionDate", "1970-01-02T01:00:00")])]⟩

/-- The record parsed from `iniC5` at descriptor path Trash/info/a.trashinfo. -/
def tiC5 : TrashInfo :=
  ⟨["Trash", "info", "a.trashinfo"], ["Trash", "files", "a"], "/home/x", 90000⟩

/-- A record whose deletion timestamp is one second in the future of time 0. -/
def tiC10 : TrashInfo :=
  ⟨["Trash", "info", "b.trashinfo"], ["Trash", "files", "b"], "/home/y", 1⟩

/-- A record deleted exactly at time 0. -/
def tiZero : TrashInfo :=
  ⟨["Trash", "info", "c.trashinfo"], ["Trash", "files", "c"], "/home/z", 0⟩

/-- An ini document whose DeletionDate has unpadded fields: it does not
strictly match YYYY-MM-DDTHH:MM:SS, yet chrono accepts it. -/
def iniC4 : Ini :=
  ⟨[(some "Trash Info", [("Path", "/home/w"), ("DeletionDate", "2024-1-1T0:0:0")])]⟩

/-- The record the program parses from `iniC4`: the timestamp is
2024-01-01T00:00:00 local time. -/
def tiC4 : TrashInfo :=
  ⟨["Trash", "info", "d.trashinfo"], ["Trash", "files", "d"], "/home/w", 1704067200⟩

theorem parent_concat (l : Path) (a : String) : parent (l ++ [a]) = some l := by
  cases l with
  | nil => rfl
  | cons x xs =>
    show some (((x :: xs) ++ [a]).dropLast) = some (x :: xs)
    rw [List.dropLast_concat]

theorem info_to_file_concat (gp : Path) (dir name : String) :
    info_to_file (gp ++ [dir, name]) = Except.ok (gp ++ ["files", fileStemStr name]) := by
  have h2 : gp ++ [dir, name] = (gp ++ [dir]) ++ [name] := by simp
  have hp1 : parent (gp ++ [dir, name]) = some (gp ++ [dir]) := by
    rw [h2]
    exact parent_concat _ _
  have hp2 : parent (gp ++ [dir]) = some gp := parent_concat _ _
  have hs : file_stem (gp ++ [dir, name]) = some (fileStemStr name) := by
    rw [file_stem, fileName, h2, List.getLast?_concat]
    rfl
  simp only [info_to_file, hp1, hp2, hs]

theorem exists_concat2 : ∀ (p : Path), 2 ≤ p.length → ∃ gp dir name, p = gp ++ [dir, name]
  | [], h => absurd h (by simp)
  | [_], h => absurd h (by simp)
  | [a, b], _ => ⟨[], a, b, rfl⟩
  | a :: b :: c :: rest, _ => by
    obtain ⟨gp, d, n, h⟩ := exists_concat2 (b :: c :: rest) (by simp)
    exact ⟨a :: gp, d, n, by rw [show a :: b :: c :: rest = a :: (b :: c :: rest) from rfl, h]; rfl⟩

theorem info_to_file_ok_iff (p : Path) :
    isOkE (info_to_file p) = true ↔ 2 ≤ p.length := by
  constructor
  · intro hok
    match p with
    | [] => exact Bool.noConfusion hok
    | [a] => exact Bool.noConfusion hok
    | a :: b :: l =>
      simp only [List.length_cons]
      omega
  · intro hlen
    obtain ⟨gp, dir, name, hd⟩ := exists_concat2 p hlen
    rw [hd, info_to_file_concat]
    rfl

/-- C3: for every descriptor path, the derived payload path equals the
descriptor's grandparent directory, then a `files` segment, then the
descriptor's file name with its extension removed; the derivation is a pure
function of the path and touches no filesystem state. -/
theorem c3_payload_path_lexical (gp : Path) (dir name : String) :
    info_to_file (gp ++ [dir, name]) = Except.ok (gp ++ ["files", fileStemStr name]) :=
  info_to_file_concat gp dir name

/-- C9: payload-path derivation succeeds exactly when the descriptor path is
at least two components deep; the names of the intervening directories are
never inspected (in particular the parent need not be named `info`), and any
descriptor two levels deep yields Ok(grandparent/files/stem). -/
theorem c9_derivation_ignores_dir_names :
    (∀ p : Path, isOkE (info_to_file p) = true ↔ 2 ≤ p.length) ∧
    (∀ (gp : Path) (dir name : String), dir ≠ "info" →
      info_to_file (gp ++ [dir, name]) = Except.ok (gp ++ ["files", fileStemStr name])) :=
  ⟨info_to_file_ok_iff, fun gp dir name _ => info_to_file_concat gp dir name⟩

/-- Witness for C9 at a parent directory named `somedir`, not `info`. -/
theorem c9_witness :
    info_to_file (["Trash"] ++ ["somedir", "b.trashinfo"])
        = Except.ok (["Trash"] ++ ["files", fileStemStr "b.trashinfo"]) ∧
    (["Trash"] ++ ["files", fileStemStr "b.trashinfo"] : Path) = ["Trash", "files", "b"] :=
  ⟨c9_derivation_ignores_dir_names.2 ["Trash"] "somedir" "b.trashinfo" (by decide), by decide⟩

/-- C1: classification precedence for a parsed record: when
`age_days >= delete_after_days` the record is classified expire, with no
condition on `warn_after_days`; otherwise when `age_days >= warn_after_days`
it is classified warn with `days_left = delete_after_days - age_days` and the
main loop leaves the filesystem and the exit status untouched; otherwise it
is classified fresh, again with no mutation. -/
theorem c1_classification_precedence (cfg : Config) (now : Int) (ti : TrashInfo)
    (fs : FS) (st : Nat) :
    (cfg.delete_after_days ≤ ageDays now ti.deletion_date →
      classify cfg (ageDays now ti.deletion_date) = Classification.expire) ∧
    (ageDays now ti.deletion_date < cfg.delete_after_days →
      cfg.warn_after_days ≤ ageDays now ti.deletion_date →
      classify cfg (ageDays now ti.deletion_date)
          = Classification.warn (cfg.delete_after_days - ageDays now ti.deletion_date) ∧
        processParsed now cfg ti fs st = (fs, st)) ∧
    (ageDays now ti.deletion_date < cfg.delete_after_days →
      ageDays now ti.deletion_date < cfg.warn_after_days →
      classify cfg (ageDays now ti.deletion_date) = Classification.fresh ∧
        processParsed now cfg ti fs st = (fs, st)) := by
  refine ⟨?_, ?_, ?_⟩
  · intro h
    simp [classify, h]
  · intro h1 h2
    have hn : ¬ cfg.delete_after_days ≤ ageDays now ti.deletion_date := by omega
    constructor
    · simp [classify, hn, h2]
    · simp [processParsed, classify, hn, h2]
  · intro h1 h2
    have hn : ¬ cfg.delete_after_days ≤ ageDays now ti.deletion_date := by omega
    have hn2 : ¬ cfg.warn_after_days ≤ ageDays now ti.deletion_date := by omega
    constructor
    · simp [classify, hn, hn2]
    · simp [processParsed, classify, hn, hn2]

/-- Witness for C1: an inverted configuration (delete after 5 days, warn
after 10) still classifies a 5-day-old record expire; a 51-day-old record
under the default thresholds warns with 9 days left and mutates nothing; a
1-day-old record is fresh and mutates nothing. -/
theorem c1_witness :
    classify ⟨5, 10⟩ (ageDays 432000 tiZero.deletion_date) = Classification.expire ∧
    (classify ⟨60, 50⟩ (ageDays 4406400 tiZero.deletion_date)
        = Classification.warn (60 - ageDays 4406400 tiZero.deletion_date) ∧
      processParsed 4406400 ⟨60, 50⟩ tiZero [] 0 = ([], 0)) ∧
    (classify ⟨60, 50⟩ (ageDays 86400 tiZero.deletion_date) = Classification.fresh ∧
      processParsed 86400 ⟨60, 50⟩ tiZero [] 0 = ([], 0)) :=
  ⟨(c1_classification_precedence ⟨5, 10⟩ 432000 tiZero [] 0).1 (by decide),
    (c1_classification_precedence ⟨60, 50⟩ 4406400 tiZero [] 0).2.1 (by decide) (by decide),
    (c1_classification_precedence ⟨60, 50⟩ 86400 tiZero [] 0).2.2 (by decide) (by decide)⟩

/-- C5 is refuted: `num_days` truncates toward zero, which differs from the
floor when the deletion timestamp is in the future. The record below is
parsed successfully from a descriptor dated 1970-01-02T01:00:00; at
`now = 0` (25 hours earlier) the code computes age −1 while the floor of
−25 hours in days is −2. -/
theorem c5_counterexample :
    TrashInfo.from_info_file ["Trash", "info", "a.trashinfo"] (Except.ok iniC5)
        = Except.ok tiC5 ∧
    ageDays 0 tiC5.deletion_date = -1 ∧
    Int.fdiv (0 - tiC5.deletion_date) 86400 = -2 ∧
    ¬ ageDays 0 tiC5.deletion_date = Int.fdiv (0 - tiC5.deletion_date) 86400 := by
  refine ⟨rfl, by decide, by decide, by decide⟩

/-- C5 (amended): `age_days` is the seconds difference divided by 86400 with
the remainder truncated toward zero; whenever the deletion timestamp is not
in the future this equals the floor, i.e. the number of whole 24-hour
periods elapsed. -/
theorem c5_age_days_truncated (now ts : Int) (h : ts ≤ now) :
    ageDays now ts = Int.fdiv (now - ts) 86400 ∧
    0 ≤ ageDays now ts ∧
    86400 * ageDays now ts ≤ now - ts ∧
    now - ts < 86400 * (ageDays now ts + 1) := by
  have h0 : 0 ≤ now - ts := by omega
  have he : ageDays now ts = (now - ts) / 86400 := by
    rw [ageDays, Int.tdiv_eq_ediv h0 (by norm_num)]
  have hf : Int.fdiv (now - ts) 86400 = (now - ts) / 86400 :=
    Int.fdiv_eq_ediv _ (by norm_num)
  have hdm := Int.ediv_add_emod (now - ts) 86400
  have hm1 : 0 ≤ (now - ts) % 86400 := Int.emod_nonneg _ (by norm_num)
  have hm2 : (now - ts) % 86400 < 86400 := Int.emod_lt_of_pos _ (by norm_num)
  refine ⟨by rw [he, hf], ?_, ?_, ?_⟩
  · rw [he]
    exact Int.ediv_nonneg h0 (by norm_num)
  · rw [he]
    omega
  · rw [he]
    omega

/-- Witness for C5 (amended) at a record deleted 25 hours before now. -/
theorem c5_witness :
    ageDays 90000 0 = Int.fdiv (90000 - 0) 86400 ∧
    0 ≤ ageDays 90000 0 ∧
    86400 * ageDays 90000 0 ≤ 90000 - 0 ∧
    90000 - 0 < 86400 * (ageDays 90000 0 + 1) :=
  c5_age_days_truncated 90000 0 (by decide)

/-- C10: a record whose deletion timestamp is in the future has non-positive
computed age, and under any configuration with positive thresholds it is
classified fresh and nothing is mutated. -/
theorem c10_future_timestamp_fresh (now : Int) (cfg : Config) (ti : TrashInfo)
    (fs : FS) (st : Nat) (hf : now < ti.deletion_date)
    (hw : 0 < cfg.warn_after_days) (hd : 0 < cfg.delete_after_days) :
    ageDays now ti.deletion_date ≤ 0 ∧
    classify cfg (ageDays now ti.deletion_date) = Classification.fresh ∧
    processParsed now cfg ti fs st = (fs, st) := by
  have hage : ageDays now ti.deletion_date ≤ 0 := by
    rw [ageDays]
    have h1 : Int.tdiv (now - ti.deletion_date) 86400
        = -(Int.tdiv (-(now - ti.deletion_date)) 86400) := by
      rw [Int.neg_tdiv, neg_neg]
    have h2 : 0 ≤ Int.tdiv (-(now - ti.deletion_date)) 86400 :=
      Int.tdiv_nonneg (by omega) (by norm_num)
    omega
  have hn : ¬ cfg.delete_after_days ≤ ageDays now ti.deletion_date := by omega
  have hn2 : ¬ cfg.warn_after_days ≤ ageDays now ti.deletion_date := by omega
  exact ⟨hage, by simp [classify, hn, hn2], by simp [processParsed, classify, hn, hn2]⟩

/-- Witness for C10: a record dated one second after `now = 0`. -/
theorem c10_witness :
    ageDays 0 tiC10.deletion_date ≤ 0 ∧
    classify ⟨60, 50⟩ (ageDays 0 tiC10.deletion_date) = Classification.fresh ∧
    processParsed 0 ⟨60, 50⟩ tiC10 [] 0 = ([], 0) :=
  c10_future_timestamp_fresh 0 ⟨60, 50⟩ tiC10 [] 0 (by decide) (by decide) (by decide)

/-- C8: a directory entry whose extension is not exactly `trashinfo`, or that
has no extension at all, is skipped: for any ini-loading behaviour the loop
step leaves the filesystem and the exit status exactly as they were. -/
theorem c8_skip_unrecognized (iniOf : Path → Except String Ini) (now : Int)
    (cfg : Config) (fs : FS) (st : Nat) (p : Path)
    (hne : extension p ≠ some "trashinfo") :
    stepEntry iniOf now cfg (fs, st) (Except.ok p) = (fs, st) := by
  rcases hx : extension p with _ | s
  · simp [stepEntry, hx]
  · have hs : s ≠ "trashinfo" := by
      intro he
      exact hne (by rw [hx, he])
    simp [stepEntry, hx, hs]

/-- Witness for C8: an entry named a.txt is skipped without touching the
state, even though its descriptor would parse as an error. -/
theorem c8_witness :
    stepEntry (fun _ => Except.error "unreadable") 0 ⟨60, 50⟩
        ([(["a.txt"], false)], 0) (Except.ok ["a.txt"]) = ([(["a.txt"], false)], 0) :=
  c8_skip_unrecognized (fun _ => Except.error "unreadable") 0 ⟨60, 50⟩
    [(["a.txt"], false)] 0 ["a.txt"] (by decide)

theorem contains_false_iff (fs : FS) (x : Path × Bool) :
    fs.contains x = false ↔ ¬ x ∈ fs := by
  simp [List.contains]

theorem contains_filter_pred_false (fs : FS) (pr : Path × Bool → Bool)
    (x : Path × Bool) (h : pr x = false) : (fs.filter pr).contains x = false := by
  rw [contains_false_iff]
  intro hm
  have h2 := (List.mem_filter.mp hm).2
  rw [h] at h2
  cases h2

theorem contains_filter_mono (fs : FS) (pr : Path × Bool → Bool)
    (x : Path × Bool) (h : fs.contains x = false) : (fs.filter pr).contains x = false := by
  rw [contains_false_iff] at h ⊢
  intro hm
  exact h (List.mem_filter.mp hm).1

/-- Shape of a successful payload removal: the result is a filter of the
input filesystem that keeps no entry at the payload path. -/
theorem payloadRemove_ok (ti : TrashInfo) (fs : FS) (fs1 : FS)
    (hp : payloadRemove ti fs = Except.ok fs1) :
    ∀ b, fs1.contains (ti.trashed_file, b) = false := by
  intro b
  unfold payloadRemove at hp
  by_cases hdir : FS.isDir fs ti.trashed_file = true
  · rw [if_pos hdir] at hp
    unfold removeDirAll at hp
    rw [if_pos (show fs.contains (ti.trashed_file, true) = true from hdir)] at hp
    injection hp with hp3
    rw [← hp3]
    exact contains_filter_pred_false fs _ _ (by simp [List.isPrefixOf_iff_prefix])
  · rw [if_neg hdir] at hp
    unfold removeFile at hp
    by_cases hcf : fs.contains (ti.trashed_file, false) = true
    · rw [if_pos hcf] at hp
      injection hp with hp3
      rw [← hp3]
      exact contains_filter_pred_false fs _ _ (by simp)
    · rw [if_neg hcf] at hp
      exact Except.noConfusion hp

/-- Shape of a successful recursive payload removal: nothing at or under the
payload path survives. -/
theorem payloadRemove_ok_dir (ti : TrashInfo) (fs : FS) (fs1 : FS)
    (hdir : FS.isDir fs ti.trashed_file = true)
    (hp : payloadRemove ti fs = Except.ok fs1) :
    ∀ q b, List.isPrefixOf ti.trashed_file q = true → fs1.contains (q, b) = false := by
  intro q b hq
  unfold payloadRemove at hp
  rw [if_pos hdir] at hp
  unfold removeDirAll at hp
  rw [if_pos (show fs.contains (ti.trashed_file, true) = true from hdir)] at hp
  injection hp with hp3
  rw [← hp3]
  exact contains_filter_pred_false fs _ _ (by simp [hq])

/-- Shape of a successful descriptor removal. -/
theorem removeFile_ok (p : Path) (fs : FS) (fs2 : FS)
    (hr : removeFile p fs = Except.ok fs2) :
    fs2 = fs.filter (fun e => !(e.1 == p)) := by
  unfold removeFile at hr
  by_cases hcf : fs.contains (p, false) = true
  · rw [if_pos hcf] at hr
    injection hr with hr2
    exact hr2.symm
  · rw [if_neg hcf] at hr
    exact Except.noConfusion hr

/-- C2: the deletion executor removes the payload first (recursively when it
is a directory) and touches the descriptor only after the payload removal
succeeded; when payload removal fails, `delete` reports the error and the
filesystem — in particular the descriptor file — is exactly as before; when
`delete` succeeds, payload and descriptor are both gone. -/
theorem c2_delete_payload_first (ti : TrashInfo) (fs : FS) :
    (∀ e, payloadRemove ti fs = Except.error e → ti.delete fs = (fs, some e)) ∧
    (isErrE (payloadRemove ti fs) = true →
      (ti.delete fs).1 = fs ∧ (ti.delete fs).2 ≠ none) ∧
    ((ti.delete fs).2 = none →
      (∀ b, ((ti.delete fs).1).contains (ti.trashed_file, b) = false) ∧
      (∀ b, ((ti.delete fs).1).contains (ti.info_file, b) = false)) ∧
    (FS.isDir fs ti.trashed_file = true → (ti.delete fs).2 = none →
      ∀ q b, List.isPrefixOf ti.trashed_file q = true →
        ((ti.delete fs).1).contains (q, b) = false) ∧
    (fs.contains (ti.info_file, false) = true →
      ((ti.delete fs).1).contains (ti.info_file, false) = false →
      isOkE (payloadRemove ti fs) = true) := by
  rcases hp : payloadRemove ti fs with e | fs1
  · have hd : ti.delete fs = (fs, some e) := by
      simp only [TrashInfo.delete, hp]
    refine ⟨?_, ?_, ?_, ?_, ?_⟩
    · intro e2 he2
      injection he2 with h3
      rw [← h3]
      exact hd
    · intro _
      rw [hd]
      exact ⟨rfl, by simp⟩
    · intro h2
      rw [hd] at h2
      exact Option.noConfusion h2
    · intro _ h2
      rw [hd] at h2
      exact Option.noConfusion h2
    · intro hin habs
      rw [hd] at habs
      rw [hin] at habs
      exact Bool.noConfusion habs
  · have hd : ti.delete fs = (match removeFile ti.info_file fs1 with
        | Except.error e => (fs1, some e)
        | Except.ok fs2 => (fs2, none)) := by
      simp only [TrashInfo.delete, hp]
    refine ⟨?_, ?_, ?_, ?_, ?_⟩
    · intro e2 he2
      exact Except.noConfusion he2
    · intro h2
      exact Bool.noConfusion h2
    · intro h2
      rcases hr : removeFile ti.info_file fs1 with e2 | fs2
      · rw [hd, hr] at h2
        exact Option.noConfusion h2
      · rw [hd, hr]
        have hshape := removeFile_ok ti.info_file fs1 fs2 hr
        constructor
        · intro b
          show fs2.contains (ti.trashed_file, b) = false
          rw [hshape]
          exact contains_filter_mono fs1 _ _ (payloadRemove_ok ti fs fs1 hp b)
        · intro b
          show fs2.contains (ti.info_file, b) = false
          rw [hshape]
          exact contains_filter_pred_false fs1 _ _ (by simp)
    · intro hdir h2 q b hq
      rcases hr : removeFile ti.info_file fs1 with e2 | fs2
      · rw [hd, hr] at h2
        exact Option.noConfusion h2
      · rw [hd, hr]
        show fs2.contains (q, b) = false
        rw [removeFile_ok ti.info_file fs1 fs2 hr]
        exact contains_filter_mono fs1 _ _ (payloadRemove_ok_dir ti fs fs1 hdir hp q b hq)
    · intro _ _
      rfl

/-- Witness for C2: a filesystem holding only the descriptor (the payload is
already gone) makes payload removal fail, and `delete` leaves the
descriptor in place and reports the error. -/
theorem c2_witness :
    payloadRemove tiZero [(["Trash", "info", "c.trashinfo"], false)]
        = Except.error "No such file" ∧
    tiZero.delete [(["Trash", "info", "c.trashinfo"], false)]
        = ([(["Trash", "info", "c.trashinfo"], false)], some "No such file") :=
  ⟨rfl,
    (c2_delete_payload_first tiZero [(["Trash", "info", "c.trashinfo"], false)]).1
      "No such file" rfl⟩

/-- C4 is refuted as stated: the code parses the timestamp with chrono,
which matches the literal separators of %Y-%m-%dT%H:%M:%S exactly and
attempts no fallback formats, but is lenient inside each numeric field. A
descriptor dated 2024-1-1T0:0:0 does not strictly match the
YYYY-MM-DDTHH:MM:SS shape the spec describes, yet the program parses it
successfully, so a descriptor can violate the strict format without
`parse` returning an error. -/
theorem c4_counterexample :
    strictFormatMatch "2024-1-1T0:0:0" = false ∧
    parseDatetime "2024-1-1T0:0:0" = some 1704067200 ∧
    TrashInfo.from_info_file ["Trash", "info", "d.trashinfo"] (Except.ok iniC4)
        = Except.ok tiC4 ∧
    isErrE (TrashInfo.from_info_file ["Trash", "info", "d.trashinfo"] (Except.ok iniC4))
        = false :=
  ⟨by decide, by decide, rfl, rfl⟩

/-- Further lenient behaviours of the chrono parse the model reproduces:
unpadded fields and a padded timestamp denote the same instant, leading
whitespace before a numeric field is trimmed, the leap second 23:59:60
behaves as one second after 23:59:59, and a wrong literal separator is
still rejected (no fallback formats). -/
theorem parseDatetime_lenient_examples :
    parseDatetime "2024-1-1T0:0:0" = parseDatetime "2024-01-01T00:00:00" ∧
    parseDatetime " 2024-01-01T00:00:00" = parseDatetime "2024-01-01T00:00:00" ∧
    parseDatetime "2023-12-31T23:59:60" = some 1704067200 ∧
    parseDatetime "2023-12-31T23:59:59" = some 1704067199 ∧
    parseDatetime "2024-01-01 00:00:00" = none ∧
    parseDatetime "2024-01-01T00:00:00x" = none := by
  refine ⟨by decide, by decide, by decide, by decide, by decide, by decide⟩

/-- C4 (amended): parsing a descriptor fails exactly when the ini file could
not be loaded, the Trash Info section is missing, the Path or DeletionDate
key is missing, the DeletionDate value is not accepted by chrono's parse of
the %Y-%m-%dT%H:%M:%S format (exact literal separators, no fallback
formats, no trailing input, but per-field leniency as described at
`parseDatetime`), or the descriptor path is less than two components deep
(no grandparent); otherwise it returns the record carrying the descriptor
path, the derived payload path, the verbatim original path and the parsed
timestamp. -/
theorem c4_parse_result (p : Path) (ini : Ini) :
    (∀ e, TrashInfo.from_info_file p (Except.error e) = Except.error e) ∧
    (isErrE (TrashInfo.from_info_file p (Except.ok ini)) = true ↔
      ini.section_ (some "Trash Info") = none ∨
      (ini.section_ (some "Trash Info")).bind (fun s => getVal s "Path") = none ∨
      (ini.section_ (some "Trash Info")).bind (fun s => getVal s "DeletionDate") = none ∨
      ((ini.section_ (some "Trash Info")).bind (fun s => getVal s "DeletionDate")).bind
          parseDatetime = none ∨
      p.length < 2) ∧
    (∀ ti, TrashInfo.from_info_file p (Except.ok ini) = Except.ok ti →
      ti.info_file = p ∧
      info_to_file p = Except.ok ti.trashed_file ∧
      (ini.section_ (some "Trash Info")).bind (fun s => getVal s "Path")
          = some ti.original_path ∧
      ((ini.section_ (some "Trash Info")).bind (fun s => getVal s "DeletionDate")).bind
          parseDatetime = some ti.deletion_date) := by
  refine ⟨fun e => rfl, ?_⟩
  rcases h1 : ini.section_ (some "Trash Info") with _ | sec
  · constructor
    · simp [TrashInfo.from_info_file, h1, isErrE]
    · intro ti h
      simp [TrashInfo.from_info_file, h1] at h
  rcases h2 : getVal sec "Path" with _ | orig
  · constructor
    · simp [TrashInfo.from_info_file, h1, h2, isErrE]
    · intro ti h
      simp [TrashInfo.from_info_file, h1, h2] at h
  rcases h3 : getVal sec "DeletionDate" with _ | ds
  · constructor
    · simp [TrashInfo.from_info_file, h1, h2, h3, isErrE]
    · intro ti h
      simp [TrashInfo.from_info_file, h1, h2, h3] at h
  rcases h4 : parseDatetime ds with _ | dd
  · constructor
    · simp [TrashInfo.from_info_file, h1, h2, h3, h4, isErrE]
    · intro ti h
      simp [TrashInfo.from_info_file, h1, h2, h3, h4] at h
  rcases h5 : info_to_file p with e | tf
  · have hlen : p.length < 2 := by
      by_contra hge
      push_neg at hge
      have hok := (info_to_file_ok_iff p).2 hge
      rw [h5] at hok
      exact Bool.noConfusion hok
    constructor
    · simp [TrashInfo.from_info_file, h1, h2, h3, h4, h5, isErrE, hlen]
    · intro ti h
      simp [TrashInfo.from_info_file, h1, h2, h3, h4, h5] at h
  · have hge : 2 ≤ p.length := (info_to_file_ok_iff p).1 (by rw [h5]; rfl)
    have hlt : ¬ p.length < 2 := by omega
    constructor
    · simp [TrashInfo.from_info_file, h1, h2, h3, h4, h5, isErrE, hlt]
    · intro ti h
      simp only [TrashInfo.from_info_file, h1, h2, h3, h4, h5] at h
      injection h with h6
      subst h6
      exact ⟨rfl, rfl, by simp [h2], by simp [h3, h4]⟩

/-- Witness for C4: the fields of the record parsed from a concrete
well-formed descriptor. -/
theorem c4_witness :
    tiC5.info_file = ["Trash", "info", "a.trashinfo"] ∧
    info_to_file ["Trash", "info", "a.trashinfo"] = Except.ok tiC5.trashed_file ∧
    (iniC5.section_ (some "Trash Info")).bind (fun s => getVal s "Path")
        = some tiC5.original_path ∧
    ((iniC5.section_ (some "Trash Info")).bind (fun s => getVal s "DeletionDate")).bind
        parseDatetime = some tiC5.deletion_date :=
  (c4_parse_result ["Trash", "info", "a.trashinfo"] iniC5).2.2 tiC5 rfl

/-- C6: config loading starts from the hardcoded defaults 60/50; files are
folded in order so a later (more preferred) file overrides earlier ones; for
each readable file every key present with a parsable integer replaces the
current value independently of the other key, while an absent key or an
unparsable value leaves the prior value, so partial overrides compose;
an unreadable file changes nothing; with no files the pure defaults remain. -/
theorem c6_config_layering :
    Config.default = { delete_after_days := 60, warn_after_days := 50 } ∧
    Config.load [] = { delete_after_days := 60, warn_after_days := 50 } ∧
    (∀ files f, Config.load (files ++ [f]) = Config.applyFile (Config.load files) f) ∧
    (∀ cfg e, Config.applyFile cfg (Except.error e) = cfg) ∧
    (∀ cfg ini, Config.applyFile cfg (Except.ok ini) =
      { delete_after_days := ((ini.get_from none "delete_after_days").bind parseI64).getD
          cfg.delete_after_days,
        warn_after_days := ((ini.get_from none "warn_after_days").bind parseI64).getD
          cfg.warn_after_days }) := by
  refine ⟨rfl, rfl, ?_, fun cfg e => rfl, ?_⟩
  · intro files f
    simp [Config.load, List.foldl_append]
  · intro cfg ini
    obtain ⟨cd, cw⟩ := cfg
    rcases hd : ini.get_from none "delete_after_days" with _ | s1
    · rcases hw : ini.get_from none "warn_after_days" with _ | s2
      · simp [Config.applyFile, hd, hw]
      · rcases hp2 : parseI64 s2 with _ | i2
        · simp [Config.applyFile, hd, hw, hp2]
        · simp [Config.applyFile, hd, hw, hp2]
    · rcases hp1 : parseI64 s1 with _ | i1
      · rcases hw : ini.get_from none "warn_after_days" with _ | s2
        · simp [Config.applyFile, hd, hw, hp1]
        · rcases hp2 : parseI64 s2 with _ | i2
          · simp [Config.applyFile, hd, hw, hp1, hp2]
          · simp [Config.applyFile, hd, hw, hp1, hp2]
      · rcases hw : ini.get_from none "warn_after_days" with _ | s2
        · simp [Config.applyFile, hd, hw, hp1]
        · rcases hp2 : parseI64 s2 with _ | i2
          · simp [Config.applyFile, hd, hw, hp1, hp2]
          · simp [Config.applyFile, hd, hw, hp1, hp2]

theorem processParsed_fst (now : Int) (cfg : Config) (ti : TrashInfo) (fs : FS)
    (st : Nat) : (processParsed now cfg ti fs st).1 = (processParsed now cfg ti fs 0).1 := by
  cases hc : classify cfg (ageDays now ti.deletion_date) with
  | expire =>
    simp only [processParsed, hc]
    rcases hd : ti.delete fs with ⟨fs1, o⟩
    cases o <;> rfl
  | warn d => simp only [processParsed, hc]
  | fresh => simp only [processParsed, hc]

theorem processParsed_snd (now : Int) (cfg : Config) (ti : TrashInfo) (fs : FS)
    (st : Nat) :
    (processParsed now cfg ti fs st).2 = if recordErr now cfg ti fs then 1 else st := by
  cases hc : classify cfg (ageDays now ti.deletion_date) with
  | expire =>
    simp only [processParsed, recordErr, hc]
    rcases hd : ti.delete fs with ⟨fs1, o⟩
    cases o <;> simp
  | warn d => simp only [processParsed, recordErr, hc, if_neg]; simp
  | fresh => simp only [processParsed, recordErr, hc, if_neg]; simp

theorem stepEntry_fst (iniOf : Path → Except String Ini) (now : Int) (cfg : Config)
    (fs : FS) (st : Nat) (e : Except String Path) :
    (stepEntry iniOf now cfg (fs, st) e).1 = (stepEntry iniOf now cfg (fs, 0) e).1 := by
  cases e with
  | error msg => rfl
  | ok tif =>
    cases hx : extension tif with
    | none => simp only [stepEntry, hx]
    | some s =>
      by_cases hs : (s == "trashinfo") = true
      · simp only [stepEntry, hx, hs, if_pos]
        cases hp : TrashInfo.from_info_file tif (iniOf tif) with
        | ok ti => exact processParsed_fst now cfg ti fs st
        | error msg => rfl
      · simp [stepEntry, hx, hs]

theorem stepEntry_snd (iniOf : Path → Except String Ini) (now : Int) (cfg : Config)
    (fs : FS) (st : Nat) (e : Except String Path) :
    (stepEntry iniOf now cfg (fs, st) e).2
      = if entryErr iniOf now cfg fs e then 1 else st := by
  cases e with
  | error msg => simp [stepEntry, entryErr]
  | ok tif =>
    cases hx : extension tif with
    | none => simp [stepEntry, entryErr, hx]
    | some s =>
      by_cases hs : (s == "trashinfo") = true
      · simp only [stepEntry, entryErr, hx, hs, if_pos]
        cases hp : TrashInfo.from_info_file tif (iniOf tif) with
        | ok ti => exact processParsed_snd now cfg ti fs st
        | error msg => simp
      · simp only [stepEntry, entryErr, hx, hs, if_neg]
        simp

theorem run_status (iniOf : Path → Except String Ini) (now : Int) (cfg : Config) :
    ∀ (es : List (Except String Path)) (fs : FS) (st : Nat),
      (es.foldl (stepEntry iniOf now cfg) (fs, st)).2
        = if (errFlags iniOf now cfg es fs).any (fun b => b) then 1 else st := by
  intro es
  induction es with
  | nil =>
    intro fs st
    simp [errFlags]
  | cons e rest ih =>
    intro fs st
    rw [List.foldl_cons]
    rw [show stepEntry iniOf now cfg (fs, st) e
        = ((stepEntry iniOf now cfg (fs, 0) e).1,
           if entryErr iniOf now cfg fs e then 1 else st) from
      Prod.ext (stepEntry_fst iniOf now cfg fs st e) (stepEntry_snd iniOf now cfg fs st e)]
    rw [ih]
    rw [show errFlags iniOf now cfg (e :: rest) fs
        = entryErr iniOf now cfg fs e ::
            errFlags iniOf now cfg rest (stepEntry iniOf now cfg (fs, 0) e).1 from rfl]
    cases hf : entryErr iniOf now cfg fs e <;> simp [hf]

theorem errFlags_length (iniOf : Path → Except String Ini) (now : Int) (cfg : Config) :
    ∀ (es : List (Except String Path)) (fs : FS),
      (errFlags iniOf now cfg es fs).length = es.length := by
  intro es
  induction es with
  | nil => intro fs; rfl
  | cons e rest ih =>
    intro fs
    rw [errFlags]
    simp [ih]

/-- C7: the exit status of a run is zero exactly when no entry raised an
error flag — i.e. no recognized descriptor failed to parse and no expired
record failed to delete; one flag is produced per directory entry (nothing
is skipped by an earlier failure), and a run over a concatenation is the
run over the first part continued over the second, so no error ever
short-circuits the batch. -/
theorem c7_exit_status (iniOf : Path → Except String Ini) (now : Int) (cfg : Config)
    (entries es1 es2 : List (Except String Path)) (fs : FS) :
    ((runMain iniOf now cfg entries fs).2 = 0 ↔
      (errFlags iniOf now cfg entries fs).any (fun b => b) = false) ∧
    (errFlags iniOf now cfg entries fs).length = entries.length ∧
    runMain iniOf now cfg (es1 ++ es2) fs
      = es2.foldl (stepEntry iniOf now cfg) (runMain iniOf now cfg es1 fs) := by
  refine ⟨?_, errFlags_length iniOf now cfg entries fs, ?_⟩
  · rw [runMain, run_status]
    cases h : (errFlags iniOf now cfg entries fs).any (fun b => b) <;> simp
  · rw [runMain, runMain, List.foldl_append]

end Trashexpiry
